import Mathlib

/-!
Verification of the version-management core of the chv CLI: the version
comparator, the release-catalog tag parser, the version resolver, the
installer, the downloader's error mapping, and the filesystem-backed local
registry (default pointer, remove).

The Rust sources are embedded shallowly:
- strings are processed over their character lists (String.data), with the
  relevant Rust primitives (split('.'), u64 parsing, trim, starts_with,
  strip_suffix) re-implemented structurally so that every definition is
  kernel-computable;
- the filesystem is an explicit state (FS) recording which version
  directories exist, which of them contain the clickhouse binary, and the
  content of the default-pointer file; filesystem primitives themselves are
  assumed not to fail on their own (fallibility that the code surfaces as
  typed errors is modelled faithfully);
- the network is an oracle (SendOutcome) giving the outcome of the one HTTP
  exchange a download performs.
-/

deriving instance DecidableEq for Except

namespace Chv

/-- The error enum of src/error.rs (payloads reduced to the rendered text
where the Rust type wraps a foreign error). -/
inductive Error where
  | Io (msg : String)
  | Http (msg : String)
  | Json (msg : String)
  | VersionNotFound (version : String)
  | NoVersionsInstalled
  | NoDefaultVersion
  | VersionAlreadyInstalled (version : String)
  | UnsupportedPlatform (os arch : String)
  | CreateDir (path : String)
  | Download (msg : String)
  | NoMatchingVersion (spec : String)
  | Exec (msg : String)
  | Cloud (msg : String)
deriving DecidableEq

/-- A parsed release entry: a version string and its channel. Its Rust
definition (struct VersionEntry in list.rs) is absent from the snapshot —
the list.rs present is a stale revision — but the shape is fixed by its
uses in resolve.rs and main.rs (fields version and channel) and by the
spec's ReleaseEntry. -/
structure VersionEntry where
  version : String
  channel : String
deriving DecidableEq

/-- Rust str::split('.') on the character list: splits at every dot,
keeping empty pieces (so "a..b" gives three pieces and "" gives one). -/
def splitDotChars : List Char → List (List Char)
  | [] => [[]]
  | c :: cs =>
    if c = '.' then [] :: splitDotChars cs
    else
      match splitDotChars cs with
      | [] => [[c]]
      | p :: ps => (c :: p) :: ps

/-- Rust str::parse::<u64>() on a character list: an optional leading
plus sign, then one or more ASCII digits, value below 2^64; anything else
(empty, other characters, overflow) fails. -/
def parseU64Chars (l : List Char) : Option Nat :=
  let t := match l with
    | '+' :: rest => rest
    | _ => l
  if t = [] then none
  else if t.all Char.isDigit then
    let n := t.foldl (fun acc c => acc * 10 + (c.toNat - 48)) 0
    if n < 2 ^ 64 then some n else none
  else none

/-- The numeric component sequence of a dotted version string, as computed
inside compare_versions (list.rs): split on dots, parse each component as
u64, silently drop components that fail to parse. -/
def version_parts (s : String) : List Nat :=
  (splitDotChars s.data).filterMap parseU64Chars

/-- The for-loop of compare_versions: walk the zipped component pairs and
return the first non-equal comparison. -/
def zipCmp : List (Nat × Nat) → Ordering
  | [] => .eq
  | (x, y) :: rest =>
    match compare x y with
    | .eq => zipCmp rest
    | o => o

/-- compare_versions from list.rs: compare the parsed numeric component
sequences pairwise; the first unequal pair decides; if all shared
components are equal, compare the component counts. -/
def compare_versions (a b : String) : Ordering :=
  match zipCmp ((version_parts a).zip (version_parts b)) with
  | .eq => compare (version_parts a).length (version_parts b).length
  | o => o

/-- Structural lexicographic comparison of numeric component sequences;
proved below to coincide with compare_versions and used to establish its
order-theoretic properties. -/
def cmpNatList : List Nat → List Nat → Ordering
  | [], [] => .eq
  | [], _ :: _ => .lt
  | _ :: _, [] => .gt
  | x :: xs, y :: ys =>
    match compare x y with
    | .eq => cmpNatList xs ys
    | o => o

/-- One step of a stable insertion sort in descending compare_versions
order: the new element goes in front of the first element it does not
compare less than, so elements comparing equal keep their original
relative order — the behaviour of Rust's stable sort_by with the
arguments flipped (list.rs line 62). -/
def insertDesc (x : String) : List String → List String
  | [] => [x]
  | y :: ys =>
    match compare_versions x y with
    | .lt => y :: insertDesc x ys
    | _ => x :: y :: ys

/-- Stable descending sort by compare_versions, as performed on the
fetched catalog and on the installed-version listing. -/
def sortDesc (l : List String) : List String := l.foldr insertDesc []

/-- Rust str::strip_suffix on character lists: if suf is a suffix of l,
return l with it removed. -/
def stripSuffixChars (l suf : List Char) : Option (List Char) :=
  if suf.isSuffixOf l then some (l.take (l.length - suf.length)) else none

/-- Tag parsing of list_available_versions (list.rs lines 48-58): strip a
leading 'v', then strip a "-stable" or "-lts" suffix; tags failing either
step are discarded. NOTE the stale list.rs in the snapshot keeps only the
version string and drops the channel, while its own callers (resolve.rs,
main.rs) require a VersionEntry with both fields; this definition follows
the code as given. -/
def parse_tag (tag : String) : Option String :=
  match tag.data with
  | 'v' :: rest =>
    match stripSuffixChars rest "-stable".data with
    | some v => some (String.mk v)
    | none =>
      match stripSuffixChars rest "-lts".data with
      | some v => some (String.mk v)
      | none => none
  | _ => none

/-- list_available_versions (list.rs lines 38-64), given the tag_name
fields of the fetched releases in fetch order: parse each tag, drop the
unparsable ones, sort newest-first. As in the stale list.rs, the result
is a bare list of version strings with no channel. -/
def list_available_versions (tags : List String) : List String :=
  sortDesc (tags.filterMap parse_tag)

/-- The partial-spec match predicate of resolve_version (resolve.rs line
77): the entry's version starts with the specifier followed by a dot, or
equals the specifier exactly. -/
def matchesPre (spec : String) (e : VersionEntry) : Bool :=
  (spec ++ ".").data.isPrefixOf e.version.data || e.version == spec

/-- resolve_version (resolve.rs lines 40-82), factored over the already
fetched catalog (the available list, in the catalog's newest-first
order): an exact 4-component specifier is returned as-is with the channel
of the first catalog entry of that version (defaulting to "stable");
"stable" and "lts" pick the first entry of that channel; anything else is
a partial spec matched by matchesPre. -/
def resolve_version (version_spec : String) (available : List VersionEntry) :
    Except Error VersionEntry :=
  if (splitDotChars version_spec.data).length = 4 then
    .ok ⟨version_spec,
      ((available.find? (fun e => e.version == version_spec)).map
        VersionEntry.channel).getD "stable"⟩
  else if version_spec = "stable" then
    match available.find? (fun e => e.channel == "stable") with
    | some e => .ok e
    | none => .error (.NoMatchingVersion version_spec)
  else if version_spec = "lts" then
    match available.find? (fun e => e.channel == "lts") with
    | some e => .ok e
    | none => .error (.NoMatchingVersion version_spec)
  else
    match available.find? (matchesPre version_spec) with
    | some e => .ok e
    | none => .error (.NoMatchingVersion version_spec)

/-- build_download_url (resolve.rs lines 86-92) with the platform
detector's (os, arch) result passed in. -/
def build_download_url (version channel os arch : String) : String :=
  "https://github.com/ClickHouse/ClickHouse/releases/download/v" ++ version
    ++ "-" ++ channel ++ "/clickhouse-" ++ os ++ "-" ++ arch

/-- Outcome of the single HTTP exchange of a download: a transport error
at send time (carrying the rendered reqwest error), or a response with
its status code, the error text reqwest would render for it, and the
byte-chunk stream (each chunk either data or a mid-stream error). -/
inductive SendOutcome where
  | transportErr (msg : String)
  | response (status : Nat) (errText : String)
      (chunks : List (Except String (List Nat)))

/-- The chunk-writing loop of download_version (download.rs lines 34-39):
each chunk is appended to the file; a chunk error propagates (as the Http
variant, via the question-mark operator). Returns the bytes written. -/
def writeChunks : List (Except String (List Nat)) → Except Error (List Nat)
  | [] => .ok []
  | .error msg :: _ => .error (.Http msg)
  | .ok bs :: rest =>
    match writeChunks rest with
    | .ok tail => .ok (bs ++ tail)
    | .error e => .error e

/-- download_version's fetch-and-stream body (download.rs lines 12-42),
over the outcome oracle: a transport error at send propagates via the
question-mark operator as the Http variant; error_for_status turns a 4xx
or 5xx status (and only those) into the Download variant carrying the URL
and the error text; otherwise the chunks are streamed to the file. -/
def download_version (url : String) (outcome : SendOutcome) :
    Except Error (List Nat) :=
  match outcome with
  | .transportErr msg => .error (.Http msg)
  | .response status errText chunks =>
    if 400 ≤ status ∧ status ≤ 599 then
      .error (.Download ("Failed to download " ++ url ++ ": " ++ errText))
    else writeChunks chunks

/-- Discriminator: is this result a Download-variant error? -/
def isDownloadErr {α : Type} : Except Error α → Bool
  | .error (.Download _) => true
  | _ => false

/-- The filesystem state owned by the local registry: the version
directories that exist under the versions directory, the subset of them
whose clickhouse binary exists, and the content of the default-pointer
file (none when the file is absent). -/
structure FS where
  versionDirs : List String
  binaries : List String
  defaultFile : Option String
deriving DecidableEq

/-- Rust str::trim on character lists (whitespace stripped from both
ends). -/
def trimChars (l : List Char) : List Char :=
  ((l.dropWhile Char.isWhitespace).reverse.dropWhile Char.isWhitespace).reverse

/-- String-level trim over the character model. -/
def strTrim (s : String) : String := String.mk (trimChars s.data)

/-- get_default_version (list.rs lines 67-89): error NoDefaultVersion if
the pointer file is absent or its trimmed content is empty; error
VersionNotFound if the named version's binary does not exist; otherwise
the trimmed content. -/
def get_default_version (fs : FS) : Except Error String :=
  match fs.defaultFile with
  | none => .error .NoDefaultVersion
  | some content =>
    if strTrim content = "" then .error .NoDefaultVersion
    else if strTrim content ∈ fs.binaries then .ok (strTrim content)
    else .error (.VersionNotFound (strTrim content))

/-- set_default_version (list.rs lines 92-102): error VersionNotFound if
the version's binary does not exist, else overwrite the pointer file. -/
def set_default_version (fs : FS) (version : String) :
    Except Error Unit × FS :=
  if version ∈ fs.binaries then (.ok (), { fs with defaultFile := some version })
  else (.error (.VersionNotFound version), fs)

/-- install_version (install.rs lines 7-33): ensure_dirs (never failing
in the model), pre-flight VersionAlreadyInstalled check on the version
directory, create the directory, download to its clickhouse binary (the
network behaviour given by the outcome oracle), and on success mark it
executable. A failed download leaves the created directory behind. -/
def install_version (fs : FS) (version channel os arch : String)
    (outcome : SendOutcome) : Except Error Unit × FS :=
  if version ∈ fs.versionDirs then
    (.error (.VersionAlreadyInstalled version), fs)
  else
    let fs1 : FS := { fs with versionDirs := version :: fs.versionDirs }
    match download_version (build_download_url version channel os arch) outcome with
    | .error e => (.error e, fs1)
    | .ok _ => (.ok (), { fs1 with binaries := version :: fs1.binaries })

/-- remove (main.rs lines 116-134): error VersionNotFound if the version
directory does not exist; if get_default_version succeeds with this very
version, delete the pointer file; then delete the version directory
recursively (removing its binary with it). -/
def remove (fs : FS) (version : String) : Except Error Unit × FS :=
  if version ∈ fs.versionDirs then
    let fs1 : FS :=
      match get_default_version fs with
      | .ok d => if d = version then { fs with defaultFile := none } else fs
      | .error _ => fs
    (.ok (),
      { fs1 with
          versionDirs := fs1.versionDirs.erase version
          binaries := fs1.binaries.erase version })
  else (.error (.VersionNotFound version), fs)


/-- Swapping the arguments of Nat comparison swaps the ordering. -/
theorem natCompare_swap (a b : Nat) : compare b a = (compare a b).swap := by
  rcases Nat.lt_trichotomy a b with h | h | h
  · rw [Nat.compare_eq_lt.2 h, Nat.compare_eq_gt.2 h]; rfl
  · subst h; rw [Nat.compare_eq_eq.2 rfl]; rfl
  · rw [Nat.compare_eq_gt.2 h, Nat.compare_eq_lt.2 h]; rfl

/-- Nat comparison is invariant under adding one to both sides. -/
theorem natCompare_succ (a b : Nat) : compare (a + 1) (b + 1) = compare a b := by
  rcases Nat.lt_trichotomy a b with h | h | h
  · rw [Nat.compare_eq_lt.2 h, Nat.compare_eq_lt.2 (Nat.succ_lt_succ h)]
  · subst h; rw [Nat.compare_eq_eq.2 rfl, Nat.compare_eq_eq.2 rfl]
  · rw [Nat.compare_eq_gt.2 h, Nat.compare_eq_gt.2 (Nat.succ_lt_succ h)]

/-- The zip-then-length-comparison algorithm of compare_versions computes
exactly the structural lexicographic comparison of the two sequences. -/
theorem zipCmp_toCmpNatList (xs : List Nat) : ∀ ys : List Nat,
    (match zipCmp (xs.zip ys) with
     | .eq => compare xs.length ys.length
     | o => o) = cmpNatList xs ys := by
  induction xs with
  | nil =>
    intro ys
    cases ys with
    | nil => decide
    | cons y ys =>
      show (match zipCmp [] with
            | .eq => compare (List.length []) (y :: ys).length
            | o => o) = cmpNatList [] (y :: ys)
      show compare 0 (ys.length + 1) = .lt
      exact Nat.compare_eq_lt.2 (Nat.succ_pos _)
  | cons x xs ih =>
    intro ys
    cases ys with
    | nil =>
      show compare (xs.length + 1) 0 = .gt
      exact Nat.compare_eq_gt.2 (Nat.succ_pos _)
    | cons y ys =>
      show (match (match compare x y with
                   | .eq => zipCmp (xs.zip ys)
                   | o => o) with
            | .eq => compare (xs.length + 1) (ys.length + 1)
            | o => o) =
          (match compare x y with
           | .eq => cmpNatList xs ys
           | o => o)
      cases hc : compare x y with
      | lt => rfl
      | gt => rfl
      | eq => rw [natCompare_succ]; exact ih ys

/-- compare_versions coincides with the structural lexicographic
comparison of the parsed component sequences. -/
theorem compare_versions_eq_cmp (a b : String) :
    compare_versions a b = cmpNatList (version_parts a) (version_parts b) := by
  unfold compare_versions
  exact zipCmp_toCmpNatList _ _

/-- Lexicographic comparison answers eq exactly on equal sequences. -/
theorem cmpNatList_eq_iff : ∀ xs ys : List Nat, cmpNatList xs ys = .eq ↔ xs = ys := by
  intro xs
  induction xs with
  | nil => intro ys; cases ys <;> simp [cmpNatList]
  | cons x xs ih =>
    intro ys
    cases ys with
    | nil => simp [cmpNatList]
    | cons y ys =>
      show (match compare x y with
            | .eq => cmpNatList xs ys
            | o => o) = .eq ↔ x :: xs = y :: ys
      cases hc : compare x y with
      | eq =>
        have hxy : x = y := Nat.compare_eq_eq.1 hc
        subst hxy
        simp [ih ys]
      | lt =>
        have hxy : x < y := Nat.compare_eq_lt.1 hc
        simp [Nat.ne_of_lt hxy]
      | gt =>
        have hxy : y < x := Nat.compare_eq_gt.1 hc
        simp [(Nat.ne_of_lt hxy).symm]

/-- Swapping the arguments of the lexicographic comparison swaps the
ordering. -/
theorem cmpNatList_swap : ∀ xs ys : List Nat,
    cmpNatList ys xs = (cmpNatList xs ys).swap := by
  intro xs
  induction xs with
  | nil => intro ys; cases ys <;> rfl
  | cons x xs ih =>
    intro ys
    cases ys with
    | nil => rfl
    | cons y ys =>
      show (match compare y x with
            | .eq => cmpNatList ys xs
            | o => o) =
          (match compare x y with
           | .eq => cmpNatList xs ys
           | o => o).swap
      rw [natCompare_swap x y]
      cases hc : compare x y with
      | lt => rfl
      | gt => rfl
      | eq => exact ih ys

/-- The strict part of the lexicographic comparison is transitive. -/
theorem cmpNatList_trans : ∀ xs ys zs : List Nat,
    cmpNatList xs ys = .lt → cmpNatList ys zs = .lt → cmpNatList xs zs = .lt := by
  intro xs
  induction xs with
  | nil =>
    intro ys zs h1 h2
    cases ys with
    | nil => exact Ordering.noConfusion h1
    | cons y ys =>
      cases zs with
      | nil => exact Ordering.noConfusion h2
      | cons z zs => rfl
  | cons x xs ih =>
    intro ys zs h1 h2
    cases ys with
    | nil => exact Ordering.noConfusion h1
    | cons y ys =>
      cases zs with
      | nil => exact Ordering.noConfusion h2
      | cons z zs =>
        show (match compare x z with
              | .eq => cmpNatList xs zs
              | o => o) = .lt
        have h1' : (match compare x y with
                    | .eq => cmpNatList xs ys
                    | o => o) = .lt := h1
        have h2' : (match compare y z with
                    | .eq => cmpNatList ys zs
                    | o => o) = .lt := h2
        cases hxy : compare x y with
        | gt => rw [hxy] at h1'; exact Ordering.noConfusion h1'
        | lt =>
          have hx : x < y := Nat.compare_eq_lt.1 hxy
          cases hyz : compare y z with
          | gt => rw [hyz] at h2'; exact Ordering.noConfusion h2'
          | lt =>
            have hy : y < z := Nat.compare_eq_lt.1 hyz
            rw [Nat.compare_eq_lt.2 (Nat.lt_trans hx hy)]
          | eq =>
            have hy : y = z := Nat.compare_eq_eq.1 hyz
            subst hy
            rw [Nat.compare_eq_lt.2 hx]
        | eq =>
          have hx : x = y := Nat.compare_eq_eq.1 hxy
          subst hx
          rw [hxy] at h1'
          cases hxz : compare x z with
          | gt => rw [hxz] at h2'; exact Ordering.noConfusion h2'
          | lt => rfl
          | eq =>
            rw [hxz] at h2'
            exact ih ys zs h1' h2'

/-- On a shared leading segment, the first unequal component pair decides
the lexicographic comparison. -/
theorem cmpNatList_append_ne : ∀ (ps : List Nat) (x y : Nat) (xs ys : List Nat),
    x ≠ y → cmpNatList (ps ++ x :: xs) (ps ++ y :: ys) = compare x y := by
  intro ps
  induction ps with
  | nil =>
    intro x y xs ys hne
    show (match compare x y with
          | .eq => cmpNatList xs ys
          | o => o) = compare x y
    cases hc : compare x y with
    | lt => rfl
    | gt => rfl
    | eq => exact absurd (Nat.compare_eq_eq.1 hc) hne
  | cons p ps ih =>
    intro x y xs ys hne
    show (match compare p p with
          | .eq => cmpNatList (ps ++ x :: xs) (ps ++ y :: ys)
          | o => o) = compare x y
    rw [Nat.compare_eq_eq.2 rfl]
    exact ih x y xs ys hne

/-- A sequence compares strictly less than any proper extension of
itself. -/
theorem cmpNatList_strict_ext : ∀ (xs : List Nat) (z : Nat) (zs : List Nat),
    cmpNatList xs (xs ++ z :: zs) = .lt := by
  intro xs
  induction xs with
  | nil => intro z zs; rfl
  | cons x xs ih =>
    intro z zs
    show (match compare x x with
          | .eq => cmpNatList xs (xs ++ z :: zs)
          | o => o) = .lt
    rw [Nat.compare_eq_eq.2 rfl]
    exact ih z zs


/-- find? returns the head of the first decomposition point whose earlier
elements all fail the predicate. -/
theorem find_first {α : Type} (p : α → Bool) :
    ∀ (l₁ : List α) (e : α) (l₂ : List α), (∀ x ∈ l₁, p x = false) → p e = true →
    (l₁ ++ e :: l₂).find? p = some e := by
  intro l₁
  induction l₁ with
  | nil =>
    intro e l₂ _ hpe
    simpa using List.find?_cons_of_pos l₂ hpe
  | cons a l₁ ih =>
    intro e l₂ hall hpe
    have hpa : p a = false := hall a (List.mem_cons_self a l₁)
    rw [List.cons_append, List.find?_cons_of_neg _ (by simp [hpa])]
    exact ih e l₂ (fun x hx => hall x (List.mem_cons_of_mem a hx)) hpe

/-- A successful find? yields a decomposition: the found element satisfies
the predicate and everything before it fails it. -/
theorem find_some_decomp {α : Type} (p : α → Bool) :
    ∀ (l : List α) (e : α), l.find? p = some e →
    p e = true ∧ ∃ l₁ l₂, l = l₁ ++ e :: l₂ ∧ ∀ x ∈ l₁, p x = false := by
  intro l
  induction l with
  | nil => intro e h; simp [List.find?] at h
  | cons a l ih =>
    intro e h
    cases hpa : p a with
    | true =>
      rw [List.find?_cons_of_pos _ hpa] at h
      injection h with h
      subst h
      exact ⟨hpa, [], l, rfl, by simp⟩
    | false =>
      rw [List.find?_cons_of_neg _ (by simp [hpa])] at h
      obtain ⟨hpe, l₁, l₂, rfl, hall⟩ := ih e h
      refine ⟨hpe, a :: l₁, l₂, rfl, ?_⟩
      intro x hx
      rcases List.mem_cons.1 hx with rfl | hx
      · exact hpa
      · exact hall x hx

/-- Claim C3: the version comparator splits both strings on dots, parses
components as unsigned integers dropping unparsable ones (version_parts),
then compares component-wise with the first unequal pair deciding; on a
common prefix the shorter sequence is lesser (and the longer greater);
in particular compare_versions "25.1.0.0" "25.1" is gt and
compare_versions "25.2" "25.10" is lt (numeric, not lexicographic). -/
theorem compare_versions_spec :
    (∀ (a b : String) (ps : List Nat) (x y : Nat) (xs ys : List Nat),
      version_parts a = ps ++ x :: xs → version_parts b = ps ++ y :: ys →
      x ≠ y → compare_versions a b = compare x y) ∧
    (∀ (a b : String) (z : Nat) (zs : List Nat),
      version_parts b = version_parts a ++ z :: zs → compare_versions a b = .lt) ∧
    (∀ (a b : String) (z : Nat) (zs : List Nat),
      version_parts a = version_parts b ++ z :: zs → compare_versions a b = .gt) ∧
    compare_versions "25.1.0.0" "25.1" = .gt ∧
    compare_versions "25.2" "25.10" = .lt := by
  refine ⟨?_, ?_, ?_, by decide, by decide⟩
  · intro a b ps x y xs ys ha hb hne
    rw [compare_versions_eq_cmp, ha, hb, cmpNatList_append_ne ps x y xs ys hne]
  · intro a b z zs hb
    rw [compare_versions_eq_cmp, hb, cmpNatList_strict_ext]
  · intro a b z zs ha
    rw [compare_versions_eq_cmp, ha, cmpNatList_swap,
      cmpNatList_strict_ext (version_parts b) z zs]
    rfl

/-- Witness for C3: the first-unequal-pair clause applied at the concrete
strings "1.5" and "1.7" (their parsed parts share the leading 1 and differ
at 5 versus 7), then the Nat comparison evaluated. -/
theorem compare_versions_spec_witness : compare_versions "1.5" "1.7" = .lt := by
  have h := compare_versions_spec.1 "1.5" "1.7" [1] 5 7 [] []
    (by decide) (by decide) (by decide)
  rw [h]
  decide

/-- Counterexample for C10: the comparator is not antisymmetric on
strings — "25.01" and "25.1" are distinct strings whose comparison is eq
(both parse to the components [25, 1]). -/
theorem compare_versions_not_antisymm :
    compare_versions "25.01" "25.1" = .eq ∧ "25.01" ≠ "25.1" := by decide

/-- Claim C10 as amended: compare_versions is a total preorder on dotted
strings — swapping arguments swaps the answer (so exactly one of lt, eq
and gt holds in each direction), the strict part is transitive, and the
answer is eq exactly when the two parsed numeric component sequences are
equal (not necessarily the strings themselves). -/
theorem compare_versions_total_preorder (a b c : String) :
    compare_versions b a = (compare_versions a b).swap ∧
    (compare_versions a b = .lt → compare_versions b c = .lt →
      compare_versions a c = .lt) ∧
    (compare_versions a b = .eq ↔ version_parts a = version_parts b) := by
  refine ⟨?_, ?_, ?_⟩
  · rw [compare_versions_eq_cmp, compare_versions_eq_cmp, cmpNatList_swap]
  · intro h1 h2
    rw [compare_versions_eq_cmp] at h1 h2 ⊢
    exact cmpNatList_trans _ _ _ h1 h2
  · rw [compare_versions_eq_cmp]
    exact cmpNatList_eq_iff _ _

/-- Witness for the amended C10: transitivity applied at the concrete
strings "1.2", "1.3" and "1.4". -/
theorem compare_versions_total_preorder_witness :
    compare_versions "1.2" "1.4" = .lt :=
  (compare_versions_total_preorder "1.2" "1.3" "1.4").2.1 (by decide) (by decide)

/-- Claim C2 (code-bug evidence): the catalog fetch of the snapshot's
list.rs, evaluated on a concrete tag list — a tag without the leading
version marker and a tag with an unrecognized channel suffix are
discarded, the rest are sorted newest-first with comparator ties
("25.01.1.1" and "25.1.1.1" parse equal) keeping fetch order, and the
result is a bare list of version strings: the channel of each release is
discarded, although the function's own callers (resolve.rs line 2 and
main.rs lines 96-99) consume a version/channel pair for each entry. -/
theorem list_available_versions_eval :
    list_available_versions
      ["v24.8.10.6-lts", "v25.01.1.1-stable", "v25.1.1.1-lts",
       "v25.12.5.44-stable", "v25.2-testing", "25.3.3.3-stable"]
      = ["25.12.5.44", "25.01.1.1", "25.1.1.1", "24.8.10.6"] := by decide

/-- Claim C1: for a specifier with exactly 4 dot-separated components,
resolve_version returns that exact string as the version together with
the channel of the first catalog entry carrying that version, or the
channel "stable" when no catalog entry carries it; it never returns an
error (in particular never NoMatchingVersion) for such a specifier. -/
theorem resolve_version_exact_spec (spec : String) (available : List VersionEntry)
    (h4 : (splitDotChars spec.data).length = 4) :
    ∃ c, resolve_version spec available = .ok ⟨spec, c⟩ ∧
      ((∃ l₁ e l₂, available = l₁ ++ e :: l₂ ∧ e.version = spec ∧ e.channel = c ∧
        ∀ x ∈ l₁, x.version ≠ spec) ∨
       ((∀ e ∈ available, e.version ≠ spec) ∧ c = "stable")) := by
  unfold resolve_version
  rw [if_pos h4]
  cases hf : available.find? (fun e => e.version == spec) with
  | none =>
    refine ⟨"stable", rfl, Or.inr ⟨?_, rfl⟩⟩
    intro e he
    have h := List.find?_eq_none.1 hf e he
    simpa [beq_iff_eq] using h
  | some e =>
    obtain ⟨hpe, l₁, l₂, ha, hall⟩ := find_some_decomp _ available e hf
    refine ⟨e.channel, rfl, Or.inl ⟨l₁, e, l₂, ha, beq_iff_eq.1 hpe, rfl, ?_⟩⟩
    intro x hx
    have h := hall x hx
    simpa [beq_iff_eq] using h

/-- Witness for C1: the exact specifier "25.9.9.9" against the empty
catalog resolves to itself with channel "stable". -/
theorem resolve_version_exact_witness :
    resolve_version "25.9.9.9" [] = .ok ⟨"25.9.9.9", "stable"⟩ := by
  obtain ⟨c, hok, hcase⟩ := resolve_version_exact_spec "25.9.9.9" [] (by decide)
  rcases hcase with ⟨l₁, e, l₂, happ, _⟩ | ⟨_, rfl⟩
  · simp at happ
  · exact hok

/-- Claim C4: for a specifier that does not have exactly 4 dot-separated
components and is neither "stable" nor "lts", resolve_version returns the
first catalog entry (in the given newest-first order) whose version
starts with the specifier followed by a dot or equals the specifier
exactly, and fails with NoMatchingVersion carrying the specifier when no
entry matches. -/
theorem resolve_version_partial_spec (spec : String) (available : List VersionEntry)
    (h4 : (splitDotChars spec.data).length ≠ 4)
    (hs : spec ≠ "stable") (hl : spec ≠ "lts") :
    ((∀ e ∈ available,
      ¬ ((spec ++ ".").data.isPrefixOf e.version.data = true ∨ e.version = spec)) →
      resolve_version spec available = .error (.NoMatchingVersion spec)) ∧
    (∀ l₁ e l₂, available = l₁ ++ e :: l₂ →
      ((spec ++ ".").data.isPrefixOf e.version.data = true ∨ e.version = spec) →
      (∀ x ∈ l₁,
        ¬ ((spec ++ ".").data.isPrefixOf x.version.data = true ∨ x.version = spec)) →
      resolve_version spec available = .ok e) := by
  have hres : resolve_version spec available =
      match available.find? (matchesPre spec) with
      | some e => .ok e
      | none => .error (.NoMatchingVersion spec) := by
    unfold resolve_version
    rw [if_neg h4, if_neg hs, if_neg hl]
  have hmiff : ∀ e : VersionEntry, matchesPre spec e = true ↔
      ((spec ++ ".").data.isPrefixOf e.version.data = true ∨ e.version = spec) := by
    intro e
    simp [matchesPre]
  constructor
  · intro hnone
    have hn : available.find? (matchesPre spec) = none := by
      rw [List.find?_eq_none]
      intro x hx hpx
      exact hnone x hx ((hmiff x).1 hpx)
    rw [hres, hn]
  · intro l₁ e l₂ ha hme hearlier
    have hs : available.find? (matchesPre spec) = some e := by
      subst ha
      refine find_first _ l₁ e l₂ ?_ ((hmiff e).2 hme)
      intro x hx
      cases hpx : matchesPre spec x with
      | false => rfl
      | true => exact absurd ((hmiff x).1 hpx) (hearlier x hx)
    rw [hres, hs]

/-- Witness for C4: the spec's worked example — "25.12" against the
catalog 25.12.5.44/stable, 25.12.1.1/stable, 25.8.1.1/lts resolves to the
first (newest) prefix match 25.12.5.44/stable. -/
theorem resolve_version_partial_witness :
    resolve_version "25.12"
      [⟨"25.12.5.44", "stable"⟩, ⟨"25.12.1.1", "stable"⟩, ⟨"25.8.1.1", "lts"⟩]
      = .ok ⟨"25.12.5.44", "stable"⟩ :=
  (resolve_version_partial_spec "25.12" _ (by decide) (by decide) (by decide)).2
    [] ⟨"25.12.5.44", "stable"⟩ [⟨"25.12.1.1", "stable"⟩, ⟨"25.8.1.1", "lts"⟩]
    rfl (by decide) (by simp)

/-- Claim C5: resolve_version "stable" returns the first catalog entry
with channel "stable" in the given newest-first order, resolve_version
"lts" the first entry with channel "lts", and each fails with
NoMatchingVersion carrying the given specifier when no entry has that
channel. -/
theorem resolve_version_channel_spec (available : List VersionEntry) :
    ((∀ e ∈ available, e.channel ≠ "stable") →
      resolve_version "stable" available = .error (.NoMatchingVersion "stable")) ∧
    (∀ l₁ e l₂, available = l₁ ++ e :: l₂ → e.channel = "stable" →
      (∀ x ∈ l₁, x.channel ≠ "stable") →
      resolve_version "stable" available = .ok e) ∧
    ((∀ e ∈ available, e.channel ≠ "lts") →
      resolve_version "lts" available = .error (.NoMatchingVersion "lts")) ∧
    (∀ l₁ e l₂, available = l₁ ++ e :: l₂ → e.channel = "lts" →
      (∀ x ∈ l₁, x.channel ≠ "lts") →
      resolve_version "lts" available = .ok e) := by
  have hres1 : resolve_version "stable" available =
      match available.find? (fun e => e.channel == "stable") with
      | some e => .ok e
      | none => .error (.NoMatchingVersion "stable") := by
    unfold resolve_version
    rw [if_neg (by decide), if_pos rfl]
  have hres2 : resolve_version "lts" available =
      match available.find? (fun e => e.channel == "lts") with
      | some e => .ok e
      | none => .error (.NoMatchingVersion "lts") := by
    unfold resolve_version
    rw [if_neg (by decide), if_neg (by decide), if_pos rfl]
  refine ⟨?_, ?_, ?_, ?_⟩
  · intro hnone
    have hn : available.find? (fun e => e.channel == "stable") = none := by
      rw [List.find?_eq_none]
      intro x hx hpx
      exact hnone x hx (beq_iff_eq.1 hpx)
    rw [hres1, hn]
  · intro l₁ e l₂ ha hch hearlier
    have hf : available.find? (fun e => e.channel == "stable") = some e := by
      subst ha
      refine find_first _ l₁ e l₂ ?_ (beq_iff_eq.2 hch)
      intro x hx
      simpa [beq_iff_eq] using hearlier x hx
    rw [hres1, hf]
  · intro hnone
    have hn : available.find? (fun e => e.channel == "lts") = none := by
      rw [List.find?_eq_none]
      intro x hx hpx
      exact hnone x hx (beq_iff_eq.1 hpx)
    rw [hres2, hn]
  · intro l₁ e l₂ ha hch hearlier
    have hf : available.find? (fun e => e.channel == "lts") = some e := by
      subst ha
      refine find_first _ l₁ e l₂ ?_ (beq_iff_eq.2 hch)
      intro x hx
      simpa [beq_iff_eq] using hearlier x hx
    rw [hres2, hf]

/-- Witness for C5: the spec's end-to-end example — "lts" against the
catalog 25.12.5.44/stable, 25.8.16.34/lts resolves to 25.8.16.34/lts. -/
theorem resolve_version_channel_witness :
    resolve_version "lts" [⟨"25.12.5.44", "stable"⟩, ⟨"25.8.16.34", "lts"⟩]
      = .ok ⟨"25.8.16.34", "lts"⟩ :=
  (resolve_version_channel_spec _).2.2.2 [⟨"25.12.5.44", "stable"⟩]
    ⟨"25.8.16.34", "lts"⟩ [] rfl rfl (by decide)


/-- The chunk-writing loop only ever fails with the Http variant. -/
theorem writeChunks_not_vai (chunks : List (Except String (List Nat))) (v : String) :
    writeChunks chunks ≠ .error (.VersionAlreadyInstalled v) := by
  induction chunks with
  | nil => simp [writeChunks]
  | cons c rest ih =>
    cases c with
    | error msg => simp [writeChunks]
    | ok bs =>
      show (match writeChunks rest with
            | .ok tail => .ok (bs ++ tail)
            | .error e => .error e) ≠ Except.error (.VersionAlreadyInstalled v)
      cases hw : writeChunks rest with
      | ok tail => simp
      | error e =>
        rw [hw] at ih
        intro h
        exact ih (by rw [← h])

/-- A download never fails with the VersionAlreadyInstalled variant: its
error conditions are the Http variant (transport or chunk errors) and the
Download variant (4xx/5xx status). -/
theorem download_not_vai (url : String) (o : SendOutcome) (v : String) :
    download_version url o ≠ .error (.VersionAlreadyInstalled v) := by
  cases o with
  | transportErr msg => simp [download_version]
  | response status errText chunks =>
    by_cases h : 400 ≤ status ∧ status ≤ 599
    · simp [download_version, h]
    · simp only [download_version, if_neg h]
      exact writeChunks_not_vai chunks v

/-- Claim C6: install_version fails with VersionAlreadyInstalled for the
requested version exactly when that version's directory already exists at
the pre-flight check, whatever the download outcome; and a second
sequential install of a version whose first install succeeded fails with
VersionAlreadyInstalled for it. -/
theorem install_version_already_installed_spec (fs : FS)
    (version channel os arch : String) (outcome : SendOutcome) :
    ((install_version fs version channel os arch outcome).1
      = .error (.VersionAlreadyInstalled version) ↔ version ∈ fs.versionDirs) ∧
    (∀ outcome2 : SendOutcome,
      (install_version fs version channel os arch outcome).1 = .ok () →
      (install_version (install_version fs version channel os arch outcome).2
        version channel os arch outcome2).1
        = .error (.VersionAlreadyInstalled version)) := by
  constructor
  · constructor
    · intro h
      by_contra hmem
      rw [install_version, if_neg hmem] at h
      cases hd : download_version (build_download_url version channel os arch) outcome with
      | error e =>
        rw [hd] at h
        simp only [Except.error.injEq] at h
        exact download_not_vai _ _ _ (by rw [hd, h])
      | ok bs => rw [hd] at h; exact Except.noConfusion h
    · intro hmem
      rw [install_version, if_pos hmem]
  · intro outcome2 hok
    have hmem : version ∉ fs.versionDirs := by
      intro hmem
      rw [install_version, if_pos hmem] at hok
      exact Except.noConfusion hok
    have hpost : version ∈ (install_version fs version channel os arch outcome).2.versionDirs := by
      rw [install_version, if_neg hmem]
      cases hd : download_version (build_download_url version channel os arch) outcome with
      | error e => exact List.mem_cons_self _ _
      | ok bs => exact List.mem_cons_self _ _
    rw [install_version, if_pos hpost]

/-- Witness for C6: on an empty filesystem with a successful network
outcome, installing 25.8.16.34 twice in sequence fails the second time
with VersionAlreadyInstalled. -/
theorem install_version_already_installed_witness :
    (install_version
      (install_version ⟨[], [], none⟩ "25.8.16.34" "lts" "linux" "x86_64"
        (.response 200 "" [.ok [1, 2]])).2
      "25.8.16.34" "lts" "linux" "x86_64" (.response 200 "" [.ok [1, 2]])).1
      = .error (.VersionAlreadyInstalled "25.8.16.34") :=
  (install_version_already_installed_spec ⟨[], [], none⟩ "25.8.16.34" "lts"
    "linux" "x86_64" (.response 200 "" [.ok [1, 2]])).2
    (.response 200 "" [.ok [1, 2]]) (by decide)

/-- Claim C7: get_default_version fails with NoDefaultVersion when the
pointer file is absent or its (trimmed) content is empty, fails with
VersionNotFound naming the pointed-to version when that version's binary
does not exist, and otherwise returns the pointed-to version — a dangling
pointer is surfaced as an error, never as an absent default. -/
theorem get_default_version_spec (fs : FS) :
    (fs.defaultFile = none → get_default_version fs = .error .NoDefaultVersion) ∧
    (∀ content, fs.defaultFile = some content → strTrim content = "" →
      get_default_version fs = .error .NoDefaultVersion) ∧
    (∀ content, fs.defaultFile = some content → strTrim content ≠ "" →
      strTrim content ∉ fs.binaries →
      get_default_version fs = .error (.VersionNotFound (strTrim content))) ∧
    (∀ content, fs.defaultFile = some content → strTrim content ≠ "" →
      strTrim content ∈ fs.binaries →
      get_default_version fs = .ok (strTrim content)) := by
  refine ⟨?_, ?_, ?_, ?_⟩
  · intro h
    rw [get_default_version, h]
  · intro content hc he
    rw [get_default_version, hc]
    show (if strTrim content = "" then Except.error Error.NoDefaultVersion
      else if strTrim content ∈ fs.binaries then Except.ok (strTrim content)
      else Except.error (.VersionNotFound (strTrim content)))
      = Except.error Error.NoDefaultVersion
    rw [if_pos he]
  · intro content hc hne hnotin
    rw [get_default_version, hc]
    show (if strTrim content = "" then Except.error Error.NoDefaultVersion
      else if strTrim content ∈ fs.binaries then Except.ok (strTrim content)
      else Except.error (.VersionNotFound (strTrim content)))
      = Except.error (.VersionNotFound (strTrim content))
    rw [if_neg hne, if_neg hnotin]
  · intro content hc hne hin
    rw [get_default_version, hc]
    show (if strTrim content = "" then Except.error Error.NoDefaultVersion
      else if strTrim content ∈ fs.binaries then Except.ok (strTrim content)
      else Except.error (.VersionNotFound (strTrim content)))
      = Except.ok (strTrim content)
    rw [if_neg hne, if_pos hin]

/-- Witness for C7: a filesystem whose pointer names the installed
version 25.8.16.34 reads back that default. -/
theorem get_default_version_witness :
    get_default_version ⟨["25.8.16.34"], ["25.8.16.34"], some "25.8.16.34"⟩
      = .ok "25.8.16.34" := by
  have h := (get_default_version_spec
    ⟨["25.8.16.34"], ["25.8.16.34"], some "25.8.16.34"⟩).2.2.2
    "25.8.16.34" rfl (by decide) (by decide)
  exact h.trans (by decide)

/-- Counterexample for C8: a state whose pointer names version 25.1.0.0
while that version's directory exists without its binary — remove
succeeds but does not clear the pointer (the default lookup inside it
fails with VersionNotFound rather than returning the version), so the
subsequent get_default_version yields VersionNotFound, not
NoDefaultVersion as the claim requires. -/
theorem remove_dangling_counterexample :
    (remove ⟨["25.1.0.0"], [], some "25.1.0.0"⟩ "25.1.0.0").1 = .ok () ∧
    (remove ⟨["25.1.0.0"], [], some "25.1.0.0"⟩ "25.1.0.0").2.defaultFile
      = some "25.1.0.0" ∧
    get_default_version (remove ⟨["25.1.0.0"], [], some "25.1.0.0"⟩ "25.1.0.0").2
      = .error (.VersionNotFound "25.1.0.0") := by decide

/-- Claim C8 as amended: remove fails with VersionNotFound when the
version's directory does not exist; and when the directory exists and
get_default_version currently succeeds returning this very version (the
pointer names it and its binary exists), remove succeeds, clears the
pointer, and a subsequent get_default_version returns NoDefaultVersion. -/
theorem remove_spec (fs : FS) (v : String) :
    (v ∉ fs.versionDirs → remove fs v = (.error (.VersionNotFound v), fs)) ∧
    (v ∈ fs.versionDirs → get_default_version fs = .ok v →
      (remove fs v).1 = .ok () ∧
      (remove fs v).2.defaultFile = none ∧
      get_default_version (remove fs v).2 = .error .NoDefaultVersion) := by
  constructor
  · intro hnot
    rw [remove, if_neg hnot]
  · intro hmem hdef
    have h1 : remove fs v =
        (.ok (), ⟨(fs.versionDirs).erase v, (fs.binaries).erase v, none⟩) := by
      simp [remove, hmem, hdef]
    rw [h1]
    exact ⟨rfl, rfl, rfl⟩

/-- Witness for the amended C8: removing the installed current default
25.1 clears the pointer, so the next get_default_version reports that no
default is set. -/
theorem remove_spec_witness :
    get_default_version (remove ⟨["25.1"], ["25.1"], some "25.1"⟩ "25.1").2
      = .error .NoDefaultVersion :=
  ((remove_spec ⟨["25.1"], ["25.1"], some "25.1"⟩ "25.1").2
    (by decide) (by decide)).2.2

/-- Counterexample for C9: a transport error at send time propagates as
the Http variant carrying only the error text — not as a Download error
(isDownloadErr is false), and without the URL attached; moreover a non-2xx
response outside 4xx/5xx (here 304) succeeds rather than failing. -/
theorem download_version_counterexample :
    download_version "https://example.test/ch" (.transportErr "connection refused")
      = .error (.Http "connection refused") ∧
    isDownloadErr (download_version "https://example.test/ch"
      (.transportErr "connection refused")) = false ∧
    download_version "https://example.test/ch" (.response 304 "" []) = .ok [] := by
  decide

/-- Claim C9 as amended: a 4xx or 5xx response fails with a Download
error carrying the URL and the underlying error text, while a transport
error fails with the Http error condition carrying the underlying error
text. -/
theorem download_version_error_spec (url msg errText : String) (status : Nat)
    (chunks : List (Except String (List Nat))) :
    download_version url (.transportErr msg) = .error (.Http msg) ∧
    (400 ≤ status → status ≤ 599 →
      download_version url (.response status errText chunks)
        = .error (.Download ("Failed to download " ++ url ++ ": " ++ errText))) := by
  refine ⟨rfl, ?_⟩
  intro h1 h2
  rw [download_version, if_pos ⟨h1, h2⟩]

/-- Witness for the amended C9: a 404 response yields the Download error
with the URL and the status text in its message. -/
theorem download_version_error_witness :
    download_version "https://example.test/ch" (.response 404 "Not Found" [])
      = .error (.Download "Failed to download https://example.test/ch: Not Found") := by
  have h := (download_version_error_spec "https://example.test/ch" "" "Not Found"
    404 []).2 (by decide) (by decide)
  exact h.trans (by decide)

end Chv
